import Mathlib

/-
Verification of the snapshot/restore/migration-sequencing engine of the
supabase-stateful CLI (src/lib/state.js, src/lib/docker.js,
src/commands/start.js, src/commands/stop.js).

Text is modelled as `List Char`.  External process invocations (psql,
pg_dump, docker, the supabase CLI) are modelled by environment records
that carry each invocation's observable outcome: its textual output, or
`none` when the invocation throws, or its numeric exit status.  The file
system touched by the engine (the state file and its backup) is modelled
as a partial map from paths to contents.  Command executions produce a
trace of the externally visible steps they perform together with the
process exit code.
-/

namespace SupabaseStateful

/-! ## Basic text utilities (List Char model of JS strings) -/

/-- Boolean prefix test on character lists. -/
def hasPrefixCL : List Char → List Char → Bool
  | [], _ => true
  | _ :: _, [] => false
  | p :: ps, c :: cs => p == c && hasPrefixCL ps cs

/-- Boolean suffix test on character lists. -/
def hasSuffixCL (p s : List Char) : Bool :=
  hasPrefixCL p.reverse s.reverse

/-- Split a character list on a separator character, in the manner of
JavaScript `String.prototype.split`: `n` separators yield `n + 1` fields. -/
def splitOnCL (sep : Char) : List Char → List (List Char)
  | [] => [[]]
  | c :: cs =>
    if c = sep then [] :: splitOnCL sep cs
    else
      match splitOnCL sep cs with
      | [] => [[c]]
      | l :: ls => (c :: l) :: ls

/-- Join character lists with a separator character (inverse of `splitOnCL`). -/
def joinWith (sep : Char) : List (List Char) → List Char
  | [] => []
  | [l] => l
  | l :: ls => l ++ sep :: joinWith sep ls

/-- Whitespace test used by the model of JS `String.prototype.trim`. -/
def isWS (c : Char) : Bool :=
  c == ' ' || c == '\t' || c == '\n' || c == '\r'

/-- Model of JS `String.prototype.trim`. -/
def trimCL (l : List Char) : List Char :=
  ((l.dropWhile isWS).reverse.dropWhile isWS).reverse

/-! ## SQL LIKE patterns

The table-discovery query of `saveState` (src/lib/state.js) filters
`pg_tables` with `NOT LIKE 'supabase_%'`, `NOT LIKE '%_migrations'` and
`NOT LIKE 'pg_%'`.  In SQL LIKE patterns `%` matches any sequence of
characters and `_` matches any single character; all other characters
match themselves literally. -/

/-- PostgreSQL LIKE matching: `likeChars pat s` is true when the pattern
`pat` (with wildcards `%` and `_`) matches the whole string `s`. -/
def likeChars : List Char → List Char → Bool
  | [], s => s.isEmpty
  | p :: ps, s =>
    if p = '%' then s.tails.any fun t => likeChars ps t
    else
      match s with
      | [] => false
      | c :: s' => if p = '_' then likeChars ps s' else p == c && likeChars ps s'

/-- LIKE matching on strings. -/
def likeStr (pat s : String) : Bool :=
  likeChars pat.data s.data

/-! ## TableDiscovery

Model of the catalog query issued by `saveState`:

    SELECT schemaname, tablename FROM pg_tables
    WHERE schemaname IN ('public', 'auth')
      AND tablename NOT LIKE 'supabase_%'
      AND tablename NOT LIKE '%_migrations'
      AND tablename NOT LIKE 'pg_%'
      AND tablename NOT IN ('schema_migrations', 'spatial_ref_sys')
    ORDER BY schemaname, tablename;

The live catalog (`pg_tables`) is modelled as a list of
(schemaname, tablename) rows. -/

/-- The WHERE clause of the discovery query, applied to one catalog row. -/
def discoveryWhere (row : String × String) : Bool :=
  (row.1 == "public" || row.1 == "auth")
    && !(likeStr "supabase_%" row.2)
    && !(likeStr "%_migrations" row.2)
    && !(likeStr "pg_%" row.2)
    && !(row.2 == "schema_migrations" || row.2 == "spatial_ref_sys")

/-- The ORDER BY (schemaname, tablename) ordering of the discovery query. -/
def rowLE (a b : String × String) : Prop :=
  a.1 < b.1 ∨ (a.1 = b.1 ∧ a.2 ≤ b.2)

instance : DecidableRel rowLE := fun _a _b =>
  inferInstanceAs (Decidable (_ ∨ _))

instance : IsTotal (String × String) rowLE where
  total a b := by
    rcases lt_trichotomy a.1 b.1 with h | h | h
    · exact Or.inl (Or.inl h)
    · rcases le_total a.2 b.2 with h2 | h2
      · exact Or.inl (Or.inr ⟨h, h2⟩)
      · exact Or.inr (Or.inr ⟨h.symm, h2⟩)
    · exact Or.inr (Or.inl h)

instance : IsTrans (String × String) rowLE where
  trans a b c hab hbc := by
    rcases hab with h1 | ⟨e1, l1⟩
    · rcases hbc with h2 | ⟨e2, _⟩
      · exact Or.inl (h1.trans h2)
      · exact Or.inl (e2 ▸ h1)
    · rcases hbc with h2 | ⟨e2, l2⟩
      · exact Or.inl (e1 ▸ h2)
      · exact Or.inr ⟨e1.trans e2, l1.trans l2⟩

/-- TableDiscovery: the rows of the live catalog selected and ordered by
the discovery query of `saveState`. -/
def tableDiscovery (catalog : List (String × String)) : List (String × String) :=
  List.insertionSort rowLE (catalog.filter discoveryWhere)

/-! ## IdempotentRewriter

Model of

    rawSql.replace(/^(INSERT INTO [^;]+);$/gm, '$1\nON CONFLICT DO NOTHING;')

from `saveState` (src/lib/state.js).  In a JavaScript regex, `^` and `$`
with the `m` flag anchor at line boundaries, while the negated class
`[^;]` matches every character other than a semicolon, including
newlines, so one match may span several lines.  The engine scans left to
right; a match can only begin at a line start, must begin with the
literal text INSERT INTO followed by a space, runs through the maximal
semicolon-free stretch (at least one character), and requires the
following semicolon to sit at a line end.  After a mismatch the scan
advances one character; after a match it resumes right after the
consumed semicolon. -/

/-- The literal head of the insert-statement pattern. -/
def insertPat : List Char := "INSERT INTO ".data

/-- The appended conflict clause with its terminating semicolon. -/
def conflictClause : List Char := "ON CONFLICT DO NOTHING;".data

/-- The remainder of the scanned text after the pattern head. -/
def restAfterPat (cs : List Char) : List Char := cs.drop insertPat.length

/-- The maximal semicolon-free run matched by the group `[^;]+`. -/
def runOf (cs : List Char) : List Char :=
  (restAfterPat cs).takeWhile (· != ';')

/-- What is left of the text from the first semicolon after the pattern head. -/
def tailSplit (cs : List Char) : List Char :=
  (restAfterPat cs).dropWhile (· != ';')

/-- The `$` anchor: the position after the semicolon is the end of the
text or the start of a new line. -/
def anchorOk : List Char → Bool
  | [] => true
  | c :: _ => c == '\n'

/-- Attempt to match `INSERT INTO [^;]+;` followed by the `$` anchor at
the current position; on success return the captured group body and the
text after the consumed semicolon. -/
def tryInsertMatch (cs : List Char) : Option (List Char × List Char) :=
  if hasPrefixCL insertPat cs then
    match tailSplit cs with
    | ';' :: tail =>
      if !(runOf cs).isEmpty && anchorOk tail then some (runOf cs, tail) else none
    | _ => none
  else none

/-- One left-to-right pass of the global replace.  The boolean records
whether the current position is a line start (where `^` matches). -/
def rewriteCore : Bool → List Char → List Char
  | _, [] => []
  | atStart, c :: cs =>
    if atStart then
      match _h : tryInsertMatch (c :: cs) with
      | some (run, tail) =>
        insertPat ++ run ++ '\n' :: conflictClause ++ rewriteCore false tail
      | none => c :: rewriteCore (c == '\n') cs
    else c :: rewriteCore (c == '\n') cs
termination_by _ cs => cs.length
decreasing_by
  · unfold tryInsertMatch at _h
    split at _h
    · split at _h
      · split at _h
        · rename_i heq _cond
          cases _h
          have h1 : (tailSplit (c :: cs)).length ≤ (restAfterPat (c :: cs)).length :=
            (List.dropWhile_sublist _).length_le
          rw [heq] at h1
          have h2 : (restAfterPat (c :: cs)).length ≤ (c :: cs).length :=
            (List.drop_sublist insertPat.length (c :: cs)).length_le
          simp only [List.length_cons] at h1 h2 ⊢
          omega
        · cases _h
      · cases _h
    · cases _h
  · simp
  · simp

/-- The full rewrite applied by `saveState` to the pg_dump output. -/
def idempotentRewrite (raw : List Char) : List Char :=
  rewriteCore true raw

/-! ## SnapshotComposer

Model of the header/footer wrapping in `saveState`. -/

/-- A single quote character (written via its code point to keep the
embedding free of quote literals). -/
def sq : Char := Char.ofNat 39

/-- One `RAISE NOTICE '...';` line of the closing notice block. -/
def noticeLine (msg : List Char) : List Char :=
  "  RAISE NOTICE ".data ++ sq :: msg ++ sq :: ";\n".data

/-- The banner rule line of the snapshot header and footer. -/
def bannerRule : List Char :=
  "-- =============================================================================\n".data

/-- The composed snapshot payload: timestamped header, disabled
replication role, the rewritten SQL, re-enabled replication role and the
closing notice block, exactly as assembled in `saveState`. -/
def snapshotText (timestamp safeSql : List Char) : List Char :=
  bannerRule
    ++ "-- Local Development State Snapshot\n".data
    ++ bannerRule
    ++ "-- Generated: ".data ++ timestamp ++ "\n".data
    ++ "-- Tool: supabase-stateful\n--\n".data
    ++ "-- This file contains your local development state including:\n".data
    ++ "-- • auth.users (test users you created)\n".data
    ++ "-- • All public schema data\n".data
    ++ "-- • Foreign key relationships intact\n--\n".data
    ++ "-- This preserves your local development progress between sessions\n".data
    ++ bannerRule
    ++ "\n-- Disable foreign key checks temporarily\n".data
    ++ "SET session_replication_role = replica;\n\n".data
    ++ safeSql
    ++ "\n\n-- Re-enable foreign key checks\n".data
    ++ "SET session_replication_role = DEFAULT;\n\n".data
    ++ bannerRule
    ++ "-- Local State Restored\n".data
    ++ bannerRule
    ++ "DO $$\nBEGIN\n".data
    ++ noticeLine []
    ++ noticeLine "Local development state restored!".data
    ++ noticeLine []
    ++ noticeLine "Your test users and data are preserved".data
    ++ noticeLine "Migrations have been applied over existing data".data
    ++ noticeLine []
    ++ "END $$;\n".data

/-! ## SnapshotStore and saveState

The files touched by the engine are modelled as a partial map from paths
to contents.  `saveState` (src/lib/state.js) backs up the current state
file, queries the catalog for tables, aborts with a warning when the
parsed table list is empty, runs pg_dump, rewrites and wraps its output
and writes the result to the state file.  A thrown exception from a
modelled external command is represented by `none` in `SaveEnv`, and the
boolean returned by the model records whether `saveState` threw. -/

/-- A file system: a partial map from paths to file contents. -/
def FS := String → Option (List Char)

/-- Writing (or overwriting) one file. -/
def fsWrite (fs : FS) (p : String) (content : List Char) : FS :=
  fun q => if q = p then some content else fs q

/-- The backup path of a state file. -/
def backupPath (p : String) : String := p ++ ".backup"

/-- The parse of the psql table-listing output performed by `saveState`:
split into lines, trim each line, keep non-empty lines containing a pipe
and split each into the (schema, table) fields around the first pipe. -/
def parsedTables (out : List Char) : List (List Char × List Char) :=
  ((((splitOnCL '\n' out).map trimCL).filter
      fun l => !l.isEmpty && l.contains '|').map
    fun l =>
      let parts := (splitOnCL '|' l).map trimCL
      (parts.headD [], (parts.drop 1).headD []))

/-- The space-joined pg_dump table flags built by `saveState`; the code
skips the export when this string is empty. -/
def tableFlags (out : List Char) : List Char :=
  joinWith ' '
    ((parsedTables out).map fun st => "--table=".data ++ st.1 ++ ".".data ++ st.2)

/-- Environment of one `saveState` run: the configured state-file path,
the outcome of the table-discovery psql call, the outcome of the pg_dump
call (`none` models a thrown exception, including the buffer ceiling)
and the header timestamp. -/
structure SaveEnv where
  stateFile : String
  tablesOutput : Option (List Char)
  dumpOutput : Option (List Char)
  timestamp : List Char

/-- `saveState`: back up any existing state file, discover tables, and
either abort (empty table list returns normally, a thrown external
command propagates, reported as `true`) or write the composed snapshot
to the state file. -/
def saveState (env : SaveEnv) (fs : FS) : FS × Bool :=
  let fs1 :=
    match fs env.stateFile with
    | some old => fsWrite fs (backupPath env.stateFile) old
    | none => fs
  match env.tablesOutput with
  | none => (fs1, true)
  | some out =>
    if (tableFlags out).isEmpty then (fs1, false)
    else
      match env.dumpOutput with
      | none => (fs1, true)
      | some raw =>
        (fsWrite fs1 env.stateFile
          (snapshotText env.timestamp (idempotentRewrite raw)), false)

/-! ## Command traces -/

/-- Externally visible steps of the `start` and `stop` commands. -/
inductive Ev where
  | warnNotRunning
  | saveStateCall
  | logSaveFailed
  | logStateSaved
  | clearTokens
  | platformStop
  | attemptStartDefault
  | attemptStartExclude
  | attemptStartIgnore
  | logStartFailed
  | checkState
  | logNoSavedState
  | dockerCp
  | psqlRestore
  | logRestored
  | warnRestoreFailed
  | migrationList
  | migrationUp
  | logMigrationFailed
  | logMigrationsApplied
  | logNoPending
  | ready
deriving DecidableEq, Repr

/-! ## The stop command (src/commands/stop.js)

`stop` warns and returns when the environment is not running; otherwise
it calls `saveState` (logging, but swallowing, a failure), always calls
`clearAuthTokens`, always invokes the platform stop operation and
finishes with exit code 0. -/

/-- Environment of one `stop` run. -/
structure StopEnv where
  running : Bool
  save : SaveEnv
  clearOk : Bool

/-- The `stop` command: resulting file system, trace and exit code. -/
def stop (env : StopEnv) (fs : FS) : FS × List Ev × Nat :=
  if !env.running then (fs, [Ev.warnNotRunning], 0)
  else
    let r := saveState env.save fs
    (r.1,
      Ev.saveStateCall ::
        (if r.2 then [Ev.logSaveFailed] else [Ev.logStateSaved])
          ++ Ev.clearTokens :: [Ev.platformStop],
      0)

/-! ## The start command (src/commands/start.js) -/

/-- Environment of one `start` run: the initial liveness probe, the exit
statuses of the three startup strategies, snapshot existence, the
outcome of the docker-cp of the snapshot into the container, the outcome
of the machine-readable migration listing (`none` models a thrown
exception) and the exit status of the migration-apply operation. -/
structure StartEnv where
  running : Bool
  startStatus : Nat
  startExcludeStatus : Nat
  startIgnoreStatus : Nat
  snapshotExists : Bool
  cpOk : Bool
  listOutput : Option (List Char)
  upStatus : Nat

/-- The pattern whose occurrences `applyMigrations` counts in the
migration listing output. -/
def appliedFalsePat : List Char := "\"Applied\": false".data

/-- Number of occurrences of `pat` in a text, counted at every position.
The JS code counts the non-overlapping global matches of the regex; for
`appliedFalsePat` no occurrence can begin strictly inside another (no
proper suffix of the pattern is one of its prefixes), so the two counts
agree. -/
def countMatches (pat : List Char) : List Char → Nat
  | [] => 0
  | c :: cs => (if hasPrefixCL pat (c :: cs) then 1 else 0) + countMatches pat cs

/-- The pending-migration count parsed from the listing output. -/
def pendingCount (out : List Char) : Nat :=
  countMatches appliedFalsePat out

/-- `applyMigrations`: with a successful listing, apply only when the
pending count is positive and treat a non-zero apply status as fatal
(exit 1); when the listing throws, blindly apply, log success only on
status 0 and never fail. -/
def applyMigrations (e : StartEnv) : List Ev × Option Nat :=
  match e.listOutput with
  | some out =>
    if 0 < pendingCount out then
      if e.upStatus ≠ 0 then
        ([Ev.migrationList, Ev.migrationUp, Ev.logMigrationFailed], some 1)
      else ([Ev.migrationList, Ev.migrationUp, Ev.logMigrationsApplied], none)
    else ([Ev.migrationList, Ev.logNoPending], none)
  | none =>
    if e.upStatus = 0 then
      ([Ev.migrationList, Ev.migrationUp, Ev.logMigrationsApplied], none)
    else ([Ev.migrationList, Ev.migrationUp], none)

/-- `startSupabase`: the three-strategy startup ladder, stopping at the
first strategy whose exit status is 0. -/
def startSupabase (e : StartEnv) : List Ev × Bool :=
  if e.startStatus = 0 then ([Ev.attemptStartDefault], true)
  else if e.startExcludeStatus = 0 then
    ([Ev.attemptStartDefault, Ev.attemptStartExclude], true)
  else if e.startIgnoreStatus = 0 then
    ([Ev.attemptStartDefault, Ev.attemptStartExclude, Ev.attemptStartIgnore], true)
  else
    ([Ev.attemptStartDefault, Ev.attemptStartExclude, Ev.attemptStartIgnore], false)

/-- `restoreState` (src/lib/state.js): when a snapshot exists, copy it
into the container (a failed copy throws, reported as `none`) and run
psql on it with any psql error swallowed; without a snapshot return
false. -/
def restoreState (e : StartEnv) : List Ev × Option Bool :=
  if e.snapshotExists then
    if e.cpOk then ([Ev.dockerCp, Ev.psqlRestore], some true)
    else ([Ev.dockerCp], none)
  else ([], some false)

/-- `restoreSavedState` (src/commands/start.js): consult `stateExists`,
then run `restoreState` with its exception caught and logged as a
warning; without a snapshot only log that none was found. -/
def restoreSavedState (e : StartEnv) : List Ev :=
  if e.snapshotExists then
    Ev.checkState ::
      (match restoreState e with
       | (evs, some _) => evs ++ [Ev.logRestored]
       | (evs, none) => evs ++ [Ev.warnRestoreFailed])
  else [Ev.checkState, Ev.logNoSavedState]

/-- The `start` command: trace and exit code.  Warm attach goes straight
to the migration check; a cold start runs the startup ladder, then the
restore step, then the migration check. -/
def start (e : StartEnv) : List Ev × Nat :=
  if e.running then
    match applyMigrations e with
    | (m, some n) => (m, n)
    | (m, none) => (m ++ [Ev.ready], 0)
  else
    match startSupabase e with
    | (s, false) => (s ++ [Ev.logStartFailed], 1)
    | (s, true) =>
      match applyMigrations e with
      | (m, some n) => (s ++ restoreSavedState e ++ m, n)
      | (m, none) => (s ++ restoreSavedState e ++ m ++ [Ev.ready], 0)

/-! ## Claim-side definitions

Definitions written from the specification's words (not from the
source), used to compare spec statements with the code model. -/

/-- Spec-claimed discovery filter: literal prefix and suffix matches, as
the specification words them (drop names with literal prefix supabase_,
literal suffix _migrations, literal prefix pg_, and the two bookkeeping
names) restricted to the two fixed schemas. -/
def claimedDiscoveryWhere (row : String × String) : Bool :=
  (row.1 == "public" || row.1 == "auth")
    && !(hasPrefixCL "supabase_".data row.2.data)
    && !(hasSuffixCL "_migrations".data row.2.data)
    && !(hasPrefixCL "pg_".data row.2.data)
    && !(row.2 == "schema_migrations" || row.2 == "spatial_ref_sys")

/-- Amended discovery filter: the LIKE patterns of the query with the
SQL semantics of the single-character wildcard spelled out — drop names
that extend the literal prefix supabase by at least one more character,
names of length at least eleven ending in the literal text migrations,
names that extend the literal prefix pg by at least one more character,
and the two bookkeeping names. -/
def amendedDiscoveryWhere (row : String × String) : Bool :=
  (row.1 == "public" || row.1 == "auth")
    && !(hasPrefixCL "supabase".data row.2.data && decide (9 ≤ row.2.data.length))
    && !(hasSuffixCL "migrations".data row.2.data && decide (11 ≤ row.2.data.length))
    && !(hasPrefixCL "pg".data row.2.data && decide (3 ≤ row.2.data.length))
    && !(row.2 == "schema_migrations" || row.2 == "spatial_ref_sys")

/-- A whole line of the form INSERT INTO followed by a non-empty
semicolon-free body and a terminating semicolon, as the claim for the
rewriter words it. -/
def isInsertLine (l : List Char) : Bool :=
  hasPrefixCL insertPat l
    && l.getLast? == some ';'
    && !(l.dropLast.drop insertPat.length).isEmpty
    && !(l.dropLast.drop insertPat.length).contains ';'

/-- The claimed per-line transformation: append the conflict clause
before the terminating semicolon of an insert line, leave every other
line unchanged. -/
def specLineRewrite (l : List Char) : List Char :=
  if isInsertLine l then l.dropLast ++ '\n' :: conflictClause else l

/-- The claimed rewrite of the whole export: transform each line
independently. -/
def lineRewrite (s : List Char) : List Char :=
  joinWith '\n' ((splitOnCL '\n' s).map specLineRewrite)

/-- Every line that begins with INSERT INTO contains a semicolon, i.e.
no insert statement spans several lines. -/
def singleLineInserts (s : List Char) : Bool :=
  (splitOnCL '\n' s).all fun l => !(hasPrefixCL insertPat l) || l.contains ';'

/-! ## Helper lemmas -/

theorem hasPrefixCL_iff (p s : List Char) : hasPrefixCL p s = true ↔ p <+: s := by
  induction p generalizing s with
  | nil => simp [hasPrefixCL]
  | cons a ps ih =>
    cases s with
    | nil => simp [hasPrefixCL]
    | cons c cs =>
      simp only [hasPrefixCL, Bool.and_eq_true, beq_iff_eq, ih, List.cons_prefix_cons]

theorem hasSuffixCL_iff (p s : List Char) : hasSuffixCL p s = true ↔ p <:+ s := by
  rw [hasSuffixCL, hasPrefixCL_iff, List.reverse_prefix]

theorem backupPath_ne (p : String) : backupPath p ≠ p := by
  intro h
  have h2 := congrArg String.length h
  rw [backupPath, String.length_append] at h2
  have h7 : (".backup" : String).length = 7 := rfl
  rw [h7] at h2
  omega

theorem splitOnCL_ne_nil (sep : Char) (l : List Char) : splitOnCL sep l ≠ [] := by
  cases l with
  | nil => simp [splitOnCL]
  | cons c cs =>
    rw [splitOnCL]
    split
    · simp
    · split <;> simp

theorem not_mem_of_mem_splitOnCL (sep : Char) :
    ∀ (l : List Char), ∀ x ∈ splitOnCL sep l, sep ∉ x := by
  intro l
  induction l with
  | nil =>
    intro x hx
    simp only [splitOnCL, List.mem_singleton] at hx
    simp [hx]
  | cons c cs ih =>
    intro x hx
    rw [splitOnCL] at hx
    by_cases hc : c = sep
    · rw [if_pos hc] at hx
      simp only [List.mem_cons] at hx
      rcases hx with rfl | hx
      · simp
      · exact ih x hx
    · rw [if_neg hc] at hx
      cases hsp : splitOnCL sep cs with
      | nil => exact absurd hsp (splitOnCL_ne_nil sep cs)
      | cons l0 ls =>
        rw [hsp] at hx
        simp only [List.mem_cons] at hx
        rcases hx with rfl | hx
        · intro hmem
          simp only [List.mem_cons] at hmem
          rcases hmem with rfl | hmem
          · exact hc rfl
          · exact ih l0 (by rw [hsp]; exact List.mem_cons_self l0 ls) hmem
        · exact ih x (by rw [hsp]; exact List.mem_cons_of_mem l0 hx)

theorem joinWith_nil (sep : Char) : joinWith sep [] = [] := rfl

theorem joinWith_single (sep : Char) (l : List Char) : joinWith sep [l] = l := rfl

theorem joinWith_cons (sep : Char) (l l2 : List Char) (ls : List (List Char)) :
    joinWith sep (l :: l2 :: ls) = l ++ sep :: joinWith sep (l2 :: ls) := rfl

theorem joinWith_splitOnCL (sep : Char) (l : List Char) :
    joinWith sep (splitOnCL sep l) = l := by
  induction l with
  | nil => rfl
  | cons c cs ih =>
    rw [splitOnCL]
    by_cases hc : c = sep
    · rw [if_pos hc]
      cases hsp : splitOnCL sep cs with
      | nil => exact absurd hsp (splitOnCL_ne_nil sep cs)
      | cons l0 ls =>
        rw [hsp] at ih
        rw [joinWith_cons, ih, hc]
        simp
    · rw [if_neg hc]
      cases hsp : splitOnCL sep cs with
      | nil => exact absurd hsp (splitOnCL_ne_nil sep cs)
      | cons l0 ls =>
        rw [hsp] at ih
        cases ls with
        | nil =>
          rw [joinWith_single]
          rw [joinWith_single] at ih
          rw [ih]
        | cons l1 ls1 =>
          rw [joinWith_cons] at ih ⊢
          rw [List.cons_append, ih]

theorem likeChars_pct_iff (ps s : List Char) :
    likeChars ('%' :: ps) s = true ↔ ∃ t, t <:+ s ∧ likeChars ps t = true := by
  rw [likeChars.eq_def]
  simp [List.any_eq_true, List.mem_tails]

theorem likeChars_pct_all (s : List Char) : likeChars ['%'] s = true := by
  rw [likeChars_pct_iff]
  exact ⟨[], List.nil_suffix, by simp [likeChars]⟩

theorem likeChars_lit_nil (p : Char) (hp : p ≠ '%') (ps : List Char) :
    likeChars (p :: ps) [] = false := by
  simp [likeChars, hp]

theorem likeChars_lit_cons (p : Char) (hp : p ≠ '%') (hu : p ≠ '_')
    (ps : List Char) (c : Char) (s : List Char) :
    likeChars (p :: ps) (c :: s) = (p == c && likeChars ps s) := by
  simp [likeChars, hp, hu]

theorem likeChars_us_nil (ps : List Char) : likeChars ('_' :: ps) [] = false := by
  simp [likeChars]

theorem likeChars_us_cons (ps : List Char) (c : Char) (s : List Char) :
    likeChars ('_' :: ps) (c :: s) = likeChars ps s := by
  simp [likeChars]

theorem likeChars_exact (lit : List Char) (h : ∀ c ∈ lit, c ≠ '%' ∧ c ≠ '_') :
    ∀ s, (likeChars lit s = true ↔ s = lit) := by
  induction lit with
  | nil => intro s; simp [likeChars, List.isEmpty_iff]
  | cons p ps ih =>
    intro s
    have hp := (h p (List.mem_cons_self p ps)).1
    have hu := (h p (List.mem_cons_self p ps)).2
    have h' : ∀ c ∈ ps, c ≠ '%' ∧ c ≠ '_' := fun c hc => h c (List.mem_cons_of_mem p hc)
    cases s with
    | nil => simp [likeChars_lit_nil p hp ps]
    | cons c cs =>
      rw [likeChars_lit_cons p hp hu]
      simp only [Bool.and_eq_true, beq_iff_eq, ih h', List.cons.injEq]
      constructor
      · rintro ⟨rfl, rfl⟩; exact ⟨rfl, rfl⟩
      · rintro ⟨rfl, rfl⟩; exact ⟨rfl, rfl⟩

theorem likeChars_lit_us_pct (lit : List Char) (h : ∀ c ∈ lit, c ≠ '%' ∧ c ≠ '_') :
    ∀ s, (likeChars (lit ++ ['_', '%']) s = true ↔
      (hasPrefixCL lit s = true ∧ lit.length < s.length)) := by
  induction lit with
  | nil =>
    intro s
    cases s with
    | nil => simp [likeChars_us_nil, hasPrefixCL]
    | cons c cs =>
      rw [List.nil_append, likeChars_us_cons]
      simp [likeChars_pct_all, hasPrefixCL]
  | cons p ps ih =>
    intro s
    have hp := (h p (List.mem_cons_self p ps)).1
    have hu := (h p (List.mem_cons_self p ps)).2
    have h' : ∀ c ∈ ps, c ≠ '%' ∧ c ≠ '_' := fun c hc => h c (List.mem_cons_of_mem p hc)
    cases s with
    | nil =>
      rw [List.cons_append, likeChars_lit_nil p hp]
      simp [hasPrefixCL]
    | cons c cs =>
      rw [List.cons_append, likeChars_lit_cons p hp hu]
      simp only [Bool.and_eq_true, beq_iff_eq, ih h', hasPrefixCL, List.length_cons]
      constructor
      · rintro ⟨rfl, hpre, hlen⟩
        refine ⟨⟨rfl, hpre⟩, by omega⟩
      · rintro ⟨⟨rfl, hpre⟩, hlen⟩
        exact ⟨rfl, hpre, by omega⟩

theorem likeChars_pct_us_lit (lit : List Char) (h : ∀ c ∈ lit, c ≠ '%' ∧ c ≠ '_')
    (s : List Char) :
    likeChars ('%' :: '_' :: lit) s = true ↔
      (hasSuffixCL lit s = true ∧ lit.length < s.length) := by
  rw [likeChars_pct_iff]
  constructor
  · rintro ⟨t, hsuf, hm⟩
    cases t with
    | nil => rw [likeChars_us_nil] at hm; cases hm
    | cons c t2 =>
      rw [likeChars_us_cons, likeChars_exact lit h t2] at hm
      rw [hm] at hsuf
      have hlen := hsuf.length_le
      simp only [List.length_cons] at hlen
      refine ⟨?_, by omega⟩
      rw [hasSuffixCL_iff]
      exact (List.suffix_cons c lit).trans hsuf
  · rintro ⟨hsuf, hlen⟩
    rw [hasSuffixCL_iff] at hsuf
    rcases hsuf with ⟨pre, rfl⟩
    rcases List.eq_nil_or_concat pre with rfl | ⟨pre2, c, rfl⟩
    · simp at hlen
    · refine ⟨c :: lit, ⟨pre2, by simp⟩, ?_⟩
      rw [likeChars_us_cons, likeChars_exact lit h]

theorem likeStr_supabase (s : String) :
    likeStr "supabase_%" s =
      (hasPrefixCL "supabase".data s.data && decide (9 ≤ s.data.length)) := by
  have hpat : "supabase_%".data = "supabase".data ++ ['_', '%'] := rfl
  have hlen : ("supabase".data).length = 8 := rfl
  rw [likeStr, hpat, Bool.eq_iff_iff,
    likeChars_lit_us_pct "supabase".data (by decide) s.data]
  simp only [Bool.and_eq_true, decide_eq_true_eq, hlen]
  constructor
  · rintro ⟨h1, h2⟩; exact ⟨h1, by omega⟩
  · rintro ⟨h1, h2⟩; exact ⟨h1, by omega⟩

theorem likeStr_migrations (s : String) :
    likeStr "%_migrations" s =
      (hasSuffixCL "migrations".data s.data && decide (11 ≤ s.data.length)) := by
  have hpat : "%_migrations".data = '%' :: '_' :: "migrations".data := rfl
  have hlen : ("migrations".data).length = 10 := rfl
  rw [likeStr, hpat, Bool.eq_iff_iff,
    likeChars_pct_us_lit "migrations".data (by decide) s.data]
  simp only [Bool.and_eq_true, decide_eq_true_eq, hlen]
  constructor
  · rintro ⟨h1, h2⟩; exact ⟨h1, by omega⟩
  · rintro ⟨h1, h2⟩; exact ⟨h1, by omega⟩

theorem likeStr_pg (s : String) :
    likeStr "pg_%" s =
      (hasPrefixCL "pg".data s.data && decide (3 ≤ s.data.length)) := by
  have hpat : "pg_%".data = "pg".data ++ ['_', '%'] := rfl
  have hlen : ("pg".data).length = 2 := rfl
  rw [likeStr, hpat, Bool.eq_iff_iff,
    likeChars_lit_us_pct "pg".data (by decide) s.data]
  simp only [Bool.and_eq_true, decide_eq_true_eq, hlen]
  constructor
  · rintro ⟨h1, h2⟩; exact ⟨h1, by omega⟩
  · rintro ⟨h1, h2⟩; exact ⟨h1, by omega⟩

theorem discoveryWhere_eq_amended (row : String × String) :
    discoveryWhere row = amendedDiscoveryWhere row := by
  rw [discoveryWhere, amendedDiscoveryWhere, likeStr_supabase, likeStr_migrations,
    likeStr_pg]

theorem hasPrefixCL_append_self (p t : List Char) : hasPrefixCL p (p ++ t) = true := by
  rw [hasPrefixCL_iff]
  exact List.prefix_append p t

theorem rewriteCore_nil (b : Bool) : rewriteCore b [] = [] := by
  rw [rewriteCore.eq_1]

theorem rewriteCore_false_cons (c : Char) (cs : List Char) :
    rewriteCore false (c :: cs) = c :: rewriteCore (c == '\n') cs := by
  rw [rewriteCore.eq_2]
  simp

theorem rewriteCore_true_match (c : Char) (cs run tail : List Char)
    (h : tryInsertMatch (c :: cs) = some (run, tail)) :
    rewriteCore true (c :: cs) =
      insertPat ++ run ++ '\n' :: conflictClause ++ rewriteCore false tail := by
  rw [rewriteCore.eq_2, if_pos rfl]
  split
  · rename_i run2 tail2 heq
    rw [h] at heq
    injection heq with heq2
    injection heq2 with h1 h2
    rw [h1, h2]
  · rename_i heq
    rw [h] at heq
    exact Option.noConfusion heq

theorem rewriteCore_true_none (c : Char) (cs : List Char)
    (h : tryInsertMatch (c :: cs) = none) :
    rewriteCore true (c :: cs) = c :: rewriteCore (c == '\n') cs := by
  rw [rewriteCore.eq_2, if_pos rfl]
  split
  · rename_i run2 tail2 heq
    rw [h] at heq
    exact Option.noConfusion heq
  · rfl

theorem rewriteCore_false_append (l z : List Char) (hnl : '\n' ∉ l) :
    rewriteCore false (l ++ z) = l ++ rewriteCore false z := by
  induction l with
  | nil => rfl
  | cons c l2 ih =>
    rw [List.cons_append, rewriteCore_false_cons]
    have hc : (c == '\n') = false := by
      simp only [beq_eq_false_iff_ne, ne_eq]
      exact fun hh => hnl (hh ▸ List.mem_cons_self c l2)
    rw [hc, ih (fun hm => hnl (List.mem_cons_of_mem c hm)), List.cons_append]

theorem takeWhile_append_stop (p : Char → Bool) :
    ∀ (r z : List Char), (∃ x ∈ r, p x = false) →
      (r ++ z).takeWhile p = r.takeWhile p := by
  intro r
  induction r with
  | nil =>
    rintro z ⟨x, hx, _⟩
    cases hx
  | cons c r2 ih =>
    rintro z ⟨x, hx, hpx⟩
    rw [List.cons_append, List.takeWhile_cons, List.takeWhile_cons]
    cases hpc : p c with
    | false => simp
    | true =>
      have hxr : x ∈ r2 := by
        rcases List.mem_cons.mp hx with rfl | hm
        · rw [hpc] at hpx; cases hpx
        · exact hm
      simp [ih z ⟨x, hxr, hpx⟩]

theorem dropWhile_append_stop (p : Char → Bool) :
    ∀ (r z : List Char), (∃ x ∈ r, p x = false) →
      (r ++ z).dropWhile p = r.dropWhile p ++ z := by
  intro r
  induction r with
  | nil =>
    rintro z ⟨x, hx, _⟩
    cases hx
  | cons c r2 ih =>
    rintro z ⟨x, hx, hpx⟩
    rw [List.cons_append, List.dropWhile_cons, List.dropWhile_cons]
    cases hpc : p c with
    | false => simp
    | true =>
      have hxr : x ∈ r2 := by
        rcases List.mem_cons.mp hx with rfl | hm
        · rw [hpc] at hpx; cases hpx
        · exact hm
      simp [ih z ⟨x, hxr, hpx⟩]

theorem dropWhile_semi_of_mem :
    ∀ (r : List Char), ';' ∈ r → ∃ b, r.dropWhile (· != ';') = ';' :: b := by
  intro r
  induction r with
  | nil => intro hx; cases hx
  | cons c r2 ih =>
    intro hx
    by_cases hc : c = ';'
    · subst hc
      refine ⟨r2, ?_⟩
      rw [List.dropWhile_cons]
      simp
    · rw [List.dropWhile_cons]
      have hne : (c != ';') = true := by simp [hc]
      rw [hne]
      simp only [if_true]
      exact ih (by rcases List.mem_cons.mp hx with rfl | hm; exact absurd rfl hc; exact hm)

theorem tryInsertMatch_nil : tryInsertMatch [] = none := rfl

theorem skip_step (w : List Char) (h : tryInsertMatch w = none) :
    rewriteCore true w = rewriteCore false w := by
  cases w with
  | nil => rw [rewriteCore_nil, rewriteCore_nil]
  | cons c w2 => rw [rewriteCore_true_none c w2 h, rewriteCore_false_cons]

theorem skip_whole_line (l z : List Char) (hnl : '\n' ∉ l)
    (hnone : tryInsertMatch (l ++ z) = none) :
    rewriteCore true (l ++ z) = l ++ rewriteCore false z := by
  rw [skip_step (l ++ z) hnone, rewriteCore_false_append l z hnl]

theorem rewriteCore_true_matchW (w run tail : List Char)
    (h : tryInsertMatch w = some (run, tail)) :
    rewriteCore true w =
      insertPat ++ run ++ '\n' :: conflictClause ++ rewriteCore false tail := by
  cases w with
  | nil => rw [tryInsertMatch_nil] at h; exact Option.noConfusion h
  | cons c w2 => exact rewriteCore_true_match c w2 run tail h

theorem semi_decomp (r : List Char) (hr : ';' ∈ r) :
    ∃ b a, r = b ++ ';' :: a ∧ ';' ∉ b ∧
      r.takeWhile (· != ';') = b ∧ r.dropWhile (· != ';') = ';' :: a := by
  obtain ⟨a, ha⟩ := dropWhile_semi_of_mem r hr
  refine ⟨r.takeWhile (· != ';'), a, ?_, ?_, rfl, ha⟩
  · rw [← ha, List.takeWhile_append_dropWhile]
  · intro hm
    have := List.mem_takeWhile_imp hm
    simp at this

theorem hasPrefixCL_append_newline (pat : List Char) (hpat : '\n' ∉ pat) :
    ∀ (l rest : List Char), '\n' ∉ l →
      hasPrefixCL pat (l ++ '\n' :: rest) = hasPrefixCL pat l := by
  induction pat with
  | nil => intro l rest _; rfl
  | cons p ps ih =>
    intro l rest hnl
    cases l with
    | nil =>
      have hp : p ≠ '\n' := fun hh => hpat (hh ▸ List.mem_cons_self p ps)
      simp [hasPrefixCL, hp]
    | cons c l2 =>
      simp only [List.cons_append, hasPrefixCL, List.append_eq]
      rw [ih (fun hm => hpat (List.mem_cons_of_mem p hm)) l2 rest
        (fun hm => hnl (List.mem_cons_of_mem c hm))]

theorem anchored_prefix_eq (l z : List Char) (hnl : '\n' ∉ l)
    (hz : anchorOk z = true) :
    hasPrefixCL insertPat (l ++ z) = hasPrefixCL insertPat l := by
  cases z with
  | nil => rw [List.append_nil]
  | cons c0 z2 =>
    have hc0 : c0 = '\n' := by
      have hz2 := hz
      rw [anchorOk] at hz2
      exact beq_iff_eq.mp hz2
    subst hc0
    exact hasPrefixCL_append_newline insertPat (by decide) l z2 hnl

/-- Central lemma for the rewriter: on a newline-free line whose insert
prefix (when present) is terminated by a semicolon within the line, one
scan step of the global replace acts exactly as the claimed per-line
transformation, and then continues after the line boundary. -/
theorem rewriteCore_line (l z : List Char) (hnl : '\n' ∉ l)
    (hins : hasPrefixCL insertPat l = true → ';' ∈ l)
    (hz : anchorOk z = true) :
    rewriteCore true (l ++ z) = specLineRewrite l ++ rewriteCore false z := by
  by_cases hpre : hasPrefixCL insertPat l = true
  · -- the line starts with the insert pattern and contains a semicolon
    have hsemi : ';' ∈ l := hins hpre
    obtain ⟨r, rfl⟩ := (hasPrefixCL_iff insertPat l).mp hpre
    have hr : ';' ∈ r := by
      rcases List.mem_append.mp hsemi with hm | hm
      · exact absurd hm (by decide)
      · exact hm
    have hnr : '\n' ∉ r := fun hm => hnl (List.mem_append.mpr (Or.inr hm))
    obtain ⟨b, a, hba, hbs, htw, hdw⟩ := semi_decomp r hr
    have hrest : restAfterPat ((insertPat ++ r) ++ z) = r ++ z := by
      rw [restAfterPat, List.append_assoc, List.drop_left]
    have hstop : ∃ x ∈ r, (x != ';') = false := ⟨';', hr, by simp⟩
    have hts : tailSplit ((insertPat ++ r) ++ z) = ';' :: (a ++ z) := by
      rw [tailSplit, hrest, dropWhile_append_stop _ r z hstop, hdw, List.cons_append]
    have hrun : runOf ((insertPat ++ r) ++ z) = b := by
      rw [runOf, hrest, takeWhile_append_stop _ r z hstop, htw]
    have hpre2 : hasPrefixCL insertPat ((insertPat ++ r) ++ z) = true := by
      rw [List.append_assoc]
      exact hasPrefixCL_append_self _ _
    cases a with
    | nil =>
      by_cases hbnil : b = []
      · -- the line is exactly INSERT INTO followed by a bare semicolon:
        -- the group would be empty, so neither side rewrites
        subst hbnil
        simp only [List.nil_append] at hba
        subst hba
        have hnone : tryInsertMatch ((insertPat ++ [';']) ++ z) = none := by
          rw [tryInsertMatch, if_pos hpre2, hts, hrun]
          simp
        have hspec : specLineRewrite (insertPat ++ [';']) = insertPat ++ [';'] := by
          rw [specLineRewrite, if_neg]
          rw [show isInsertLine (insertPat ++ [';']) = false from by decide]
          simp
        rw [skip_whole_line _ _ hnl hnone, hspec]
      · -- a genuine whole-line insert statement: both sides rewrite
        have hsome : tryInsertMatch ((insertPat ++ r) ++ z) = some (b, z) := by
          rw [tryInsertMatch, if_pos hpre2, hts]
          simp only [List.nil_append]
          rw [hrun]
          rw [if_pos (show (!b.isEmpty && anchorOk z) = true by
            simp [List.isEmpty_iff, hbnil, hz])]
        have hlast : (insertPat ++ r).getLast? = some ';' := by
          rw [hba, ← List.append_assoc]
          exact List.getLast?_concat _
        have hdrop : (insertPat ++ r).dropLast.drop insertPat.length = b := by
          rw [hba, ← List.append_assoc, List.dropLast_concat, List.drop_left]
        have hspec : specLineRewrite (insertPat ++ r) =
            (insertPat ++ b) ++ '\n' :: conflictClause := by
          have h1 : b.isEmpty = false := by simp [List.isEmpty_iff, hbnil]
          have h2 : b.contains ';' = false := by
            cases hE : b.contains ';' with
            | false => rfl
            | true => exact absurd (List.elem_iff.mp hE) hbs
          have hIns : isInsertLine (insertPat ++ r) = true := by
            rw [isInsertLine, hdrop, hlast, hpre, h1, h2]
            decide
          rw [specLineRewrite, if_pos hIns]
          rw [show (insertPat ++ r).dropLast = insertPat ++ b from by
            rw [hba, ← List.append_assoc, List.dropLast_concat]]
        rw [rewriteCore_true_matchW _ b z hsome, hspec]
    | cons a0 a2 =>
      -- the first semicolon of the line is not at the line end: no match
      have ha0r : a0 ∈ r := by
        have : a0 ∈ r.dropWhile (· != ';') := by
          rw [hdw]
          exact List.mem_cons_of_mem _ (List.mem_cons_self a0 a2)
        exact List.Sublist.mem this (List.dropWhile_sublist _)
      have ha0 : a0 ≠ '\n' := fun hh => hnr (hh ▸ ha0r)
      have hnone : tryInsertMatch ((insertPat ++ r) ++ z) = none := by
        rw [tryInsertMatch, if_pos hpre2, hts]
        have : anchorOk ((a0 :: a2) ++ z) = false := by
          rw [List.cons_append, anchorOk]
          simp [ha0]
        simp only [List.cons_append] at this ⊢
        rw [this]
        simp
      have hspec : specLineRewrite (insertPat ++ r) = insertPat ++ r := by
        rw [specLineRewrite, if_neg]
        intro habs
        rw [isInsertLine] at habs
        simp only [Bool.and_eq_true] at habs
        obtain ⟨⟨⟨_, _⟩, _⟩, hncont⟩ := habs
        have hmem : ';' ∈ (insertPat ++ r).dropLast.drop insertPat.length := by
          have hrne : r ≠ [] := by
            rw [hba]
            simp
          rw [List.dropLast_append_of_ne_nil _ hrne, List.drop_left, hba,
            List.dropLast_append_of_ne_nil _ (by simp : (';' :: a0 :: a2) ≠ []),
            List.dropLast_cons_of_ne_nil (by simp : (a0 :: a2) ≠ [])]
          exact List.mem_append.mpr (Or.inr (List.mem_cons_self _ _))
        have hx : ((insertPat ++ r).dropLast.drop insertPat.length).contains ';' = true :=
          List.elem_eq_true_of_mem hmem
        rw [hx] at hncont
        simp at hncont
      rw [skip_whole_line _ _ hnl hnone, hspec]
  · -- the line does not start with the insert pattern: no match, no spec line
    have hpreF : hasPrefixCL insertPat l = false := by
      simpa using hpre
    have hnone : tryInsertMatch (l ++ z) = none := by
      rw [tryInsertMatch, anchored_prefix_eq l z hnl hz, hpreF]
      simp
    have hspec : specLineRewrite l = l := by
      rw [specLineRewrite, if_neg]
      intro habs
      rw [isInsertLine] at habs
      simp only [Bool.and_eq_true] at habs
      exact hpre habs.1.1.1
    rw [skip_whole_line _ _ hnl hnone, hspec]

theorem rewriteCore_joinWith : ∀ (ls : List (List Char)),
    (∀ l ∈ ls, '\n' ∉ l) →
    (∀ l ∈ ls, hasPrefixCL insertPat l = true → ';' ∈ l) →
    rewriteCore true (joinWith '\n' ls) = joinWith '\n' (ls.map specLineRewrite) := by
  intro ls
  induction ls with
  | nil =>
    intro _ _
    rw [List.map_nil, joinWith_nil, rewriteCore_nil]
  | cons l ls2 ih =>
    intro hnl hins
    cases ls2 with
    | nil =>
      rw [List.map_singleton, joinWith_single, joinWith_single]
      have h := rewriteCore_line l [] (hnl l (List.mem_cons_self l []))
        (hins l (List.mem_cons_self l [])) rfl
      rw [List.append_nil, rewriteCore_nil, List.append_nil] at h
      exact h
    | cons l2 ls3 =>
      have hnl2 : ∀ x ∈ l2 :: ls3, '\n' ∉ x :=
        fun x hx => hnl x (List.mem_cons_of_mem l hx)
      have hins2 : ∀ x ∈ l2 :: ls3, hasPrefixCL insertPat x = true → ';' ∈ x :=
        fun x hx => hins x (List.mem_cons_of_mem l hx)
      have h := rewriteCore_line l ('\n' :: joinWith '\n' (l2 :: ls3))
        (hnl l (List.mem_cons_self l _)) (hins l (List.mem_cons_self l _)) rfl
      rw [joinWith_cons, h, rewriteCore_false_cons,
        show ('\n' == '\n') = true from rfl, ih hnl2 hins2]
      simp only [List.map_cons, joinWith_cons]

theorem idempotentRewrite_lines (s : List Char) (hP : singleLineInserts s = true) :
    idempotentRewrite s = lineRewrite s := by
  rw [lineRewrite, idempotentRewrite]
  conv_lhs => rw [← joinWith_splitOnCL '\n' s]
  apply rewriteCore_joinWith
  · exact fun l hl => not_mem_of_mem_splitOnCL '\n' s l hl
  · intro l hl hpre
    rw [singleLineInserts, List.all_eq_true] at hP
    have := hP l hl
    rw [hpre] at this
    simp only [Bool.not_true, Bool.false_or] at this
    exact List.elem_iff.mp this

/-! ## Helper lemmas about the command models -/

theorem mig_list_mem_apply (e : StartEnv) :
    Ev.migrationList ∈ (applyMigrations e).1 := by
  cases hlo : e.listOutput with
  | none =>
    by_cases hup : e.upStatus = 0 <;> simp [applyMigrations, hlo, hup]
  | some out =>
    by_cases hp : 0 < pendingCount out
    · by_cases hup : e.upStatus = 0 <;> simp [applyMigrations, hlo, hp, hup]
    · simp [applyMigrations, hlo, hp]

theorem logStartFailed_not_mem_apply (e : StartEnv) :
    Ev.logStartFailed ∉ (applyMigrations e).1 := by
  cases hlo : e.listOutput with
  | none =>
    by_cases hup : e.upStatus = 0 <;> simp [applyMigrations, hlo, hup]
  | some out =>
    by_cases hp : 0 < pendingCount out
    · by_cases hup : e.upStatus = 0 <;> simp [applyMigrations, hlo, hp, hup]
    · simp [applyMigrations, hlo, hp]

theorem logStartFailed_not_mem_restore (e : StartEnv) :
    Ev.logStartFailed ∉ restoreSavedState e := by
  by_cases hs : e.snapshotExists <;> by_cases hcp : e.cpOk <;>
    simp [restoreSavedState, restoreState, hs, hcp]

theorem startSupabase_ok (e : StartEnv)
    (hok : e.startStatus = 0 ∨ e.startExcludeStatus = 0 ∨ e.startIgnoreStatus = 0) :
    (startSupabase e).2 = true := by
  rcases hok with h | h | h
  · simp [startSupabase, h]
  · by_cases h0 : e.startStatus = 0 <;> simp [startSupabase, h0, h]
  · by_cases h0 : e.startStatus = 0 <;> by_cases h1 : e.startExcludeStatus = 0 <;>
      simp [startSupabase, h0, h1, h]

theorem startSupabase_no_mig (e : StartEnv) :
    Ev.migrationList ∉ (startSupabase e).1 ∧ Ev.migrationUp ∉ (startSupabase e).1 := by
  by_cases h0 : e.startStatus = 0 <;> by_cases h1 : e.startExcludeStatus = 0 <;>
    by_cases h2 : e.startIgnoreStatus = 0 <;> simp [startSupabase, h0, h1, h2]

theorem startSupabase_no_fail (e : StartEnv) :
    Ev.logStartFailed ∉ (startSupabase e).1 := by
  by_cases h0 : e.startStatus = 0 <;> by_cases h1 : e.startExcludeStatus = 0 <;>
    by_cases h2 : e.startIgnoreStatus = 0 <;> simp [startSupabase, h0, h1, h2]

/-! ## Claim theorems -/

/-- C10: when the environment is not running, the stop command only
warns: the file system is unchanged (state file and backup included), no
save, token deletion or platform stop step is performed, and the exit
code is 0. -/
theorem claim_C10 (env : StopEnv) (fs : FS) (h : env.running = false) :
    stop env fs = (fs, [Ev.warnNotRunning], 0) := by
  simp [stop, h]

theorem claim_C10_witness :
    stop ⟨false, ⟨"supabase/local-state.sql", none, none, []⟩, true⟩ (fun _ => none) =
      ((fun _ => none), [Ev.warnNotRunning], 0) :=
  claim_C10 ⟨false, ⟨"supabase/local-state.sql", none, none, []⟩, true⟩ (fun _ => none) rfl

/-- C1 counterexample: with the environment running and pg_dump
throwing, saveState throws, yet the stop flow still deletes the auth
tokens, still invokes the platform stop operation and exits 0 — the
claimed abort does not happen. -/
theorem claim_C1_counterexample :
    (saveState ⟨"s.sql", some " public | users ".data, none, []⟩ (fun _ => none)).2 = true
    ∧ Ev.clearTokens ∈
        (stop ⟨true, ⟨"s.sql", some " public | users ".data, none, []⟩, true⟩
          (fun _ => none)).2.1
    ∧ Ev.platformStop ∈
        (stop ⟨true, ⟨"s.sql", some " public | users ".data, none, []⟩, true⟩
          (fun _ => none)).2.1
    ∧ (stop ⟨true, ⟨"s.sql", some " public | users ".data, none, []⟩, true⟩
        (fun _ => none)).2.2 = 0 := by
  decide

/-- C1 (amended): when the snapshot export fails during stop, the
failure is logged and the flow continues: the auth-token deletion and
the platform stop operation are still performed and the process exits 0;
the file system is whatever the aborted saveState left. -/
theorem claim_C1 (env : StopEnv) (fs : FS) (hrun : env.running = true)
    (hthrew : (saveState env.save fs).2 = true) :
    (stop env fs).2.1 =
      [Ev.saveStateCall, Ev.logSaveFailed, Ev.clearTokens, Ev.platformStop]
    ∧ (stop env fs).2.2 = 0
    ∧ (stop env fs).1 = (saveState env.save fs).1 := by
  simp [stop, hrun, hthrew]

theorem claim_C1_witness :
    ((⟨true, ⟨"t.sql", some " public | t ".data, none, []⟩, true⟩ : StopEnv).running = true)
    ∧ (saveState (⟨true, ⟨"t.sql", some " public | t ".data, none, []⟩, true⟩ : StopEnv).save
        (fun _ => none)).2 = true
    ∧ ((stop ⟨true, ⟨"t.sql", some " public | t ".data, none, []⟩, true⟩ (fun _ => none)).2.1 =
        [Ev.saveStateCall, Ev.logSaveFailed, Ev.clearTokens, Ev.platformStop]
      ∧ (stop ⟨true, ⟨"t.sql", some " public | t ".data, none, []⟩, true⟩ (fun _ => none)).2.2 = 0
      ∧ (stop ⟨true, ⟨"t.sql", some " public | t ".data, none, []⟩, true⟩ (fun _ => none)).1 =
          (saveState (⟨true, ⟨"t.sql", some " public | t ".data, none, []⟩, true⟩ : StopEnv).save
            (fun _ => none)).1) :=
  ⟨rfl, by decide, claim_C1 _ _ rfl (by decide)⟩

/-- C2: on a warm attach (environment already running) the start command
never consults stateExists and never performs any restore step — no
snapshot check, no copy into the container, no snapshot execution — and
its first step is the migration check. -/
theorem claim_C2 (e : StartEnv) (h : e.running = true) :
    (start e).1.head? = some Ev.migrationList
    ∧ Ev.checkState ∉ (start e).1
    ∧ Ev.dockerCp ∉ (start e).1
    ∧ Ev.psqlRestore ∉ (start e).1 := by
  cases hlo : e.listOutput with
  | none =>
    by_cases hup : e.upStatus = 0 <;> simp [start, h, applyMigrations, hlo, hup]
  | some out =>
    by_cases hp : 0 < pendingCount out
    · by_cases hup : e.upStatus = 0 <;> simp [start, h, applyMigrations, hlo, hp, hup]
    · simp [start, h, applyMigrations, hlo, hp]

theorem claim_C2_witness :
    ((⟨true, 0, 0, 0, true, true, some [], 0⟩ : StartEnv).running = true)
    ∧ ((start ⟨true, 0, 0, 0, true, true, some [], 0⟩).1.head? = some Ev.migrationList
      ∧ Ev.checkState ∉ (start ⟨true, 0, 0, 0, true, true, some [], 0⟩).1
      ∧ Ev.dockerCp ∉ (start ⟨true, 0, 0, 0, true, true, some [], 0⟩).1
      ∧ Ev.psqlRestore ∉ (start ⟨true, 0, 0, 0, true, true, some [], 0⟩).1) :=
  ⟨rfl, claim_C2 ⟨true, 0, 0, 0, true, true, some [], 0⟩ rfl⟩

/-- C4: a non-zero migration-apply status is fatal (exit 1) exactly when
the listing succeeded with a positive pending count; on the fallback
path (listing threw) a non-zero status yields no fatal exit, no success
log and no failure log, and a warm-attach start still exits 0. -/
theorem claim_C4 (e : StartEnv) :
    ((applyMigrations e).2 = some 1 ↔
      (∃ out, e.listOutput = some out ∧ 0 < pendingCount out ∧ e.upStatus ≠ 0))
    ∧ (e.listOutput = none → e.upStatus ≠ 0 →
        ((applyMigrations e).2 = none
          ∧ Ev.logMigrationsApplied ∉ (applyMigrations e).1
          ∧ Ev.logMigrationFailed ∉ (applyMigrations e).1
          ∧ (e.running = true → (start e).2 = 0))) := by
  cases hlo : e.listOutput with
  | none =>
    by_cases hup : e.upStatus = 0
    · simp [start, applyMigrations, hlo, hup]
    · simp [start, applyMigrations, hlo, hup]
      intro hrun
      simp [hrun]
  | some out =>
    by_cases hp : 0 < pendingCount out
    · by_cases hup : e.upStatus = 0 <;> simp [start, applyMigrations, hlo, hp, hup]
    · simp [start, applyMigrations, hlo, hp]

theorem claim_C4_witness :
    ((applyMigrations ⟨true, 0, 0, 0, false, true, none, 1⟩).2 = none
      ∧ Ev.logMigrationsApplied ∉ (applyMigrations ⟨true, 0, 0, 0, false, true, none, 1⟩).1
      ∧ Ev.logMigrationFailed ∉ (applyMigrations ⟨true, 0, 0, 0, false, true, none, 1⟩).1
      ∧ ((⟨true, 0, 0, 0, false, true, none, 1⟩ : StartEnv).running = true →
          (start ⟨true, 0, 0, 0, false, true, none, 1⟩).2 = 0)) :=
  (claim_C4 ⟨true, 0, 0, 0, false, true, none, 1⟩).2 rfl (by decide)

/-- C3 counterexample: on a cold start with a snapshot present, when the
copy of the snapshot into the container throws, the snapshot is never
executed (the failure is caught and logged) while the migration check
still runs — so the snapshot is not always executed before migrations. -/
theorem claim_C3_counterexample :
    ((⟨false, 0, 1, 1, true, false, some [], 0⟩ : StartEnv).running = false)
    ∧ ((⟨false, 0, 1, 1, true, false, some [], 0⟩ : StartEnv).snapshotExists = true)
    ∧ Ev.psqlRestore ∉ (start ⟨false, 0, 1, 1, true, false, some [], 0⟩).1
    ∧ Ev.migrationList ∈ (start ⟨false, 0, 1, 1, true, false, some [], 0⟩).1 := by
  decide

/-- C3 (amended): on a cold start with a snapshot present, provided the
startup ladder succeeds and the copy of the snapshot into the container
does not throw, the snapshot is executed against the database strictly
before the migration check and before any migration-apply invocation. -/
theorem claim_C3 (e : StartEnv) (hr : e.running = false)
    (hs : e.snapshotExists = true) (hcp : e.cpOk = true)
    (hok : e.startStatus = 0 ∨ e.startExcludeStatus = 0 ∨ e.startIgnoreStatus = 0) :
    ∃ l1 l2, (start e).1 = l1 ++ l2 ∧ Ev.psqlRestore ∈ l1
      ∧ Ev.migrationList ∉ l1 ∧ Ev.migrationUp ∉ l1 := by
  rcases hss : startSupabase e with ⟨s, ok⟩
  have hok2 : ok = true := by
    have h2 := startSupabase_ok e hok
    rw [hss] at h2
    exact h2
  subst hok2
  rcases ham : applyMigrations e with ⟨m, ex⟩
  have hstart : ∃ tl, (start e).1 = (s ++ restoreSavedState e) ++ (m ++ tl) := by
    rw [start, if_neg (by simp [hr]), hss, ham]
    cases ex with
    | some n => exact ⟨[], by simp⟩
    | none => exact ⟨[Ev.ready], by simp⟩
  obtain ⟨tl, htl⟩ := hstart
  refine ⟨s ++ restoreSavedState e, m ++ tl, htl, ?_, ?_, ?_⟩
  · apply List.mem_append.mpr
    right
    simp [restoreSavedState, restoreState, hs, hcp]
  · intro hmem
    rcases List.mem_append.mp hmem with hm | hm
    · have hno := (startSupabase_no_mig e).1
      rw [hss] at hno
      exact hno hm
    · revert hm
      simp [restoreSavedState, restoreState, hs, hcp]
  · intro hmem
    rcases List.mem_append.mp hmem with hm | hm
    · have hno := (startSupabase_no_mig e).2
      rw [hss] at hno
      exact hno hm
    · revert hm
      simp [restoreSavedState, restoreState, hs, hcp]

theorem claim_C3_witness :
    ((⟨false, 0, 1, 1, true, true, some [], 0⟩ : StartEnv).running = false)
    ∧ ((⟨false, 0, 1, 1, true, true, some [], 0⟩ : StartEnv).snapshotExists = true)
    ∧ ((⟨false, 0, 1, 1, true, true, some [], 0⟩ : StartEnv).cpOk = true)
    ∧ (∃ l1 l2, (start ⟨false, 0, 1, 1, true, true, some [], 0⟩).1 = l1 ++ l2
        ∧ Ev.psqlRestore ∈ l1 ∧ Ev.migrationList ∉ l1 ∧ Ev.migrationUp ∉ l1) :=
  ⟨rfl, rfl, rfl,
    claim_C3 ⟨false, 0, 1, 1, true, true, some [], 0⟩ rfl rfl rfl (Or.inl rfl)⟩

/-- C5: on a cold start the ladder tries the default start, then the
exclude-flaky-component start, then the ignore-health-checks start,
stopping at the first success; exactly when all three fail, the command
reports the failure and exits 1 without any restore or migration step,
and when some strategy succeeds the migration check runs and no startup
failure is reported. -/
theorem claim_C5 (e : StartEnv) (hr : e.running = false) :
    (e.startStatus = 0 → (startSupabase e).1 = [Ev.attemptStartDefault])
    ∧ (e.startStatus ≠ 0 → e.startExcludeStatus = 0 →
        (startSupabase e).1 = [Ev.attemptStartDefault, Ev.attemptStartExclude])
    ∧ (e.startStatus ≠ 0 → e.startExcludeStatus ≠ 0 →
        (startSupabase e).1 =
          [Ev.attemptStartDefault, Ev.attemptStartExclude, Ev.attemptStartIgnore])
    ∧ ((e.startStatus ≠ 0 ∧ e.startExcludeStatus ≠ 0 ∧ e.startIgnoreStatus ≠ 0) →
        start e = ([Ev.attemptStartDefault, Ev.attemptStartExclude,
          Ev.attemptStartIgnore, Ev.logStartFailed], 1))
    ∧ (¬(e.startStatus ≠ 0 ∧ e.startExcludeStatus ≠ 0 ∧ e.startIgnoreStatus ≠ 0) →
        Ev.migrationList ∈ (start e).1 ∧ Ev.logStartFailed ∉ (start e).1) := by
  refine ⟨?_, ?_, ?_, ?_, ?_⟩
  · intro h0
    simp [startSupabase, h0]
  · intro h0 h1
    simp [startSupabase, h0, h1]
  · intro h0 h1
    by_cases h2 : e.startIgnoreStatus = 0 <;> simp [startSupabase, h0, h1, h2]
  · rintro ⟨h0, h1, h2⟩
    rw [start, if_neg (by simp [hr])]
    rw [show startSupabase e =
      ([Ev.attemptStartDefault, Ev.attemptStartExclude, Ev.attemptStartIgnore], false)
      from by simp [startSupabase, h0, h1, h2]]
    rfl
  · intro hnall
    have hok : e.startStatus = 0 ∨ e.startExcludeStatus = 0 ∨ e.startIgnoreStatus = 0 := by
      by_cases h0 : e.startStatus = 0
      · exact Or.inl h0
      · by_cases h1 : e.startExcludeStatus = 0
        · exact Or.inr (Or.inl h1)
        · by_cases h2 : e.startIgnoreStatus = 0
          · exact Or.inr (Or.inr h2)
          · exact absurd ⟨h0, h1, h2⟩ hnall
    rcases hss : startSupabase e with ⟨s, ok⟩
    have hok2 : ok = true := by
      have h2 := startSupabase_ok e hok
      rw [hss] at h2
      exact h2
    subst hok2
    rcases ham : applyMigrations e with ⟨m, ex⟩
    have hmem_m : Ev.migrationList ∈ m := by
      have h2 := mig_list_mem_apply e
      rw [ham] at h2
      exact h2
    have hno_m : Ev.logStartFailed ∉ m := by
      have h2 := logStartFailed_not_mem_apply e
      rw [ham] at h2
      exact h2
    have hno_s : Ev.logStartFailed ∉ s := by
      have h2 := startSupabase_no_fail e
      rw [hss] at h2
      exact h2
    cases ex with
    | some n =>
      rw [start, if_neg (by simp [hr]), hss, ham]
      refine ⟨List.mem_append.mpr (Or.inr hmem_m), ?_⟩
      intro hmem
      rcases List.mem_append.mp hmem with hm | hm
      · rcases List.mem_append.mp hm with hm2 | hm2
        · exact hno_s hm2
        · exact logStartFailed_not_mem_restore e hm2
      · exact hno_m hm
    | none =>
      rw [start, if_neg (by simp [hr]), hss, ham]
      refine ⟨List.mem_append.mpr (Or.inl (List.mem_append.mpr (Or.inr hmem_m))), ?_⟩
      intro hmem
      rcases List.mem_append.mp hmem with hm | hm
      · rcases List.mem_append.mp hm with hm2 | hm2
        · rcases List.mem_append.mp hm2 with hm3 | hm3
          · exact hno_s hm3
          · exact logStartFailed_not_mem_restore e hm3
        · exact hno_m hm2
      · rcases List.mem_cons.mp hm with h | h
        · cases h
        · cases h

theorem claim_C5_witness :
    ((⟨false, 1, 0, 1, false, true, some [], 0⟩ : StartEnv).running = false)
    ∧ (((⟨false, 1, 0, 1, false, true, some [], 0⟩ : StartEnv).startStatus ≠ 0 →
        (⟨false, 1, 0, 1, false, true, some [], 0⟩ : StartEnv).startExcludeStatus = 0 →
        (startSupabase ⟨false, 1, 0, 1, false, true, some [], 0⟩).1 =
          [Ev.attemptStartDefault, Ev.attemptStartExclude])) :=
  ⟨rfl, (claim_C5 ⟨false, 1, 0, 1, false, true, some [], 0⟩ rfl).2.1⟩

/-- C6 counterexample: the table pgcrypto in the schema public is kept
by the claimed literal-prefix filter (it does not start with the literal
text pg and an underscore), yet the discovery query drops it, because in
the LIKE pattern the underscore is a single-character wildcard. -/
theorem claim_C6_counterexample :
    claimedDiscoveryWhere ("public", "pgcrypto") = true
    ∧ tableDiscovery [("public", "pgcrypto")] = [] := by
  constructor
  · decide
  · decide

/-- C6 (amended): TableDiscovery returns exactly the tables of the
schemas public and auth that are not matched by the LIKE patterns of the
query — names extending the literal prefix supabase by at least one
character, names of length at least eleven ending in migrations, names
extending the literal prefix pg by at least one character — and are not
one of the two bookkeeping names, ordered ascending by
(schema, table). -/
theorem claim_C6 (catalog : List (String × String)) :
    tableDiscovery catalog =
      List.insertionSort rowLE (catalog.filter amendedDiscoveryWhere)
    ∧ List.Sorted rowLE (tableDiscovery catalog) := by
  constructor
  · rw [tableDiscovery,
      List.filter_congr (fun x _ => discoveryWhere_eq_amended x)]
  · exact List.sorted_insertionSort rowLE _

theorem claim_C6_witness :
    tableDiscovery [("public", "users"), ("auth", "users"), ("public", "pgcrypto")] =
      List.insertionSort rowLE
        (List.filter amendedDiscoveryWhere
          [("public", "users"), ("auth", "users"), ("public", "pgcrypto")])
    ∧ List.Sorted rowLE
        (tableDiscovery [("public", "users"), ("auth", "users"), ("public", "pgcrypto")]) :=
  claim_C6 [("public", "users"), ("auth", "users"), ("public", "pgcrypto")]

/-- C7: a completed save (table list non-empty, export succeeded) does
not throw, writes the composed snapshot payload to the state file, has
first copied a pre-existing state file to the backup path, and touches
no backup when no state file existed. -/
theorem claim_C7 (env : SaveEnv) (fs : FS) (out raw : List Char)
    (hout : env.tablesOutput = some out)
    (hflags : (tableFlags out).isEmpty = false)
    (hraw : env.dumpOutput = some raw) :
    (saveState env fs).2 = false
    ∧ (saveState env fs).1 env.stateFile =
        some (snapshotText env.timestamp (idempotentRewrite raw))
    ∧ (∀ old, fs env.stateFile = some old →
        (saveState env fs).1 (backupPath env.stateFile) = some old)
    ∧ (fs env.stateFile = none →
        (saveState env fs).1 (backupPath env.stateFile) =
          fs (backupPath env.stateFile)) := by
  cases hold : fs env.stateFile with
  | some old =>
    simp [saveState, hout, hraw, hflags, hold, fsWrite, backupPath_ne env.stateFile,
      idempotentRewrite]
  | none =>
    simp [saveState, hout, hraw, hflags, hold, fsWrite, backupPath_ne env.stateFile,
      idempotentRewrite]

/-- C9: an aborted save (empty parsed table list, or a throwing export)
leaves the state file unchanged, but has already overwritten the backup
with the pre-existing state file content. -/
theorem claim_C9 (env : SaveEnv) (fs : FS) (out : List Char)
    (hout : env.tablesOutput = some out)
    (habort : (tableFlags out).isEmpty = true ∨ env.dumpOutput = none) :
    (saveState env fs).1 env.stateFile = fs env.stateFile
    ∧ (∀ old, fs env.stateFile = some old →
        (saveState env fs).1 (backupPath env.stateFile) = some old) := by
  cases hold : fs env.stateFile with
  | some old =>
    rcases habort with ha | ha
    · simp [saveState, hout, ha, hold, fsWrite, backupPath_ne env.stateFile]
    · by_cases hfl : (tableFlags out).isEmpty
      · simp [saveState, hout, ha, hfl, hold, fsWrite, backupPath_ne env.stateFile]
      · simp [saveState, hout, ha, hfl, hold, fsWrite, backupPath_ne env.stateFile]
  | none =>
    rcases habort with ha | ha
    · simp [saveState, hout, ha, hold, fsWrite, backupPath_ne env.stateFile]
    · by_cases hfl : (tableFlags out).isEmpty
      · simp [saveState, hout, ha, hfl, hold, fsWrite, backupPath_ne env.stateFile]
      · simp [saveState, hout, ha, hfl, hold, fsWrite, backupPath_ne env.stateFile]

theorem claim_C7_witness :
    (tableFlags " public | users ".data).isEmpty = false
    ∧ (saveState ⟨"s.sql", some " public | users ".data, some "SELECT 1;\n".data, "T".data⟩
        (fsWrite (fun _ => none) "s.sql" "old".data)).2 = false
    ∧ (saveState ⟨"s.sql", some " public | users ".data, some "SELECT 1;\n".data, "T".data⟩
        (fsWrite (fun _ => none) "s.sql" "old".data)).1 (backupPath "s.sql") =
          some "old".data := by
  have h := claim_C7
    ⟨"s.sql", some " public | users ".data, some "SELECT 1;\n".data, "T".data⟩
    (fsWrite (fun _ => none) "s.sql" "old".data)
    " public | users ".data "SELECT 1;\n".data rfl (by decide) rfl
  exact ⟨by decide, h.1, h.2.2.1 "old".data (by decide)⟩

theorem claim_C9_witness :
    ((tableFlags "".data).isEmpty = true ∨
      ((⟨"s.sql", some "".data, none, []⟩ : SaveEnv).dumpOutput = none))
    ∧ (saveState ⟨"s.sql", some "".data, none, []⟩
        (fsWrite (fun _ => none) "s.sql" "old".data)).1 "s.sql" =
          fsWrite (fun _ => none) "s.sql" "old".data "s.sql"
    ∧ (saveState ⟨"s.sql", some "".data, none, []⟩
        (fsWrite (fun _ => none) "s.sql" "old".data)).1 (backupPath "s.sql") =
          some "old".data := by
  have h := claim_C9 ⟨"s.sql", some "".data, none, []⟩
    (fsWrite (fun _ => none) "s.sql" "old".data) "".data rfl (Or.inl (by decide))
  exact ⟨Or.inl (by decide), h.1, h.2 "old".data (by decide)⟩

/-- C8 counterexample: an insert statement broken across two lines (no
quoted values at all, so the claimed precondition is met) is left
untouched by the claimed per-line transformation, yet the code rewrite
changes it, because the character class excluding semicolons also
matches newlines. -/
theorem claim_C8_counterexample :
    sq ∉ "INSERT INTO t (a)\nVALUES (1);".data
    ∧ lineRewrite "INSERT INTO t (a)\nVALUES (1);".data =
        "INSERT INTO t (a)\nVALUES (1);".data
    ∧ idempotentRewrite "INSERT INTO t (a)\nVALUES (1);".data ≠
        "INSERT INTO t (a)\nVALUES (1);".data := by
  refine ⟨by decide, by decide, ?_⟩
  have h1 : tryInsertMatch "INSERT INTO t (a)\nVALUES (1);".data =
      some ("t (a)\nVALUES (1)".data, []) := by decide
  have h2 := rewriteCore_true_matchW _ _ _ h1
  rw [rewriteCore_nil] at h2
  rw [idempotentRewrite, h2]
  decide

/-- C8 (amended): when every line beginning with INSERT INTO contains a
semicolon (each insert statement sits on a single line), the global
regex replace of saveState is exactly the claimed per-line
transformation: every whole-line insert statement gets the conflict
clause appended before its terminating semicolon and every other line is
unchanged. -/
theorem claim_C8 (s : List Char) (h : singleLineInserts s = true) :
    idempotentRewrite s = lineRewrite s :=
  idempotentRewrite_lines s h

theorem claim_C8_witness :
    singleLineInserts "INSERT INTO t (a) VALUES (1);\nSELECT 1;\n".data = true
    ∧ idempotentRewrite "INSERT INTO t (a) VALUES (1);\nSELECT 1;\n".data =
        lineRewrite "INSERT INTO t (a) VALUES (1);\nSELECT 1;\n".data :=
  ⟨by decide, claim_C8 "INSERT INTO t (a) VALUES (1);\nSELECT 1;\n".data (by decide)⟩

end SupabaseStateful